import Mathlib

/-!
Shallow embedding of the consensus core of tthanh/dkvs
(src/raft/raft.go, src/raft/inmem_logstore.go), with theorems checking
the natural-language specification against the code.

Machine integers: the Go code uses uint64 for indices and terms.  They
are modelled as Nat; no operation in the claims under study depends on
wrap-around at 2^64 (the only arithmetic is +1, comparisons and min,
and every concrete input stays far below 2^64, where Nat and uint64
agree).
-/

set_option maxHeartbeats 1000000

namespace Raft

/-- Log entry (the Go struct Log): `Index`, `Term`, an opaque command
payload, and the leader-side in-flight fields `majorityQuorum` and
`count` (spec section 3). -/
structure Log where
  Index : Nat
  Term : Nat
  Command : String
  majorityQuorum : Nat
  count : Nat
  deriving Repr, DecidableEq

/-- The in-memory log store (inmem_logstore.go) is a slice of entries,
modelled as a list in storage order. -/
abbrev InmemLogStore := List Log

/-- FirstIndex (inmem_logstore.go lines 15-17).  The Go body is
`return i.entries[0].Index, nil`: it indexes element 0 without a length
check, so on an empty store it panics at runtime.  The panic is
modelled as `none`; `some n` models returning `(n, nil)`. -/
def FirstIndex (entries : InmemLogStore) : Option Nat :=
  match entries with
  | [] => none
  | e :: _ => some e.Index

/-- LastIndex (inmem_logstore.go lines 19-26): the last entry's Index
when the slice is non-empty, otherwise 0; the returned Go error is
always nil, so only the value is modelled. -/
def LastIndex (entries : InmemLogStore) : Nat :=
  match entries.getLast? with
  | some e => e.Index
  | none => 0

/-- GetLog (inmem_logstore.go lines 28-35): linear scan for an entry
whose Index equals idx; `none` models the non-nil "Can't get log"
error. -/
def GetLog (entries : InmemLogStore) (idx : Nat) : Option Log :=
  entries.find? (fun entry => entry.Index == idx)

/-- SetLog (inmem_logstore.go lines 37-40): unconditionally appends the
entry and returns a nil error (`Except.ok`).  No contiguity check
appears in the code. -/
def SetLog (entries : InmemLogStore) (entry : Log) : Except String InmemLogStore :=
  Except.ok (entries ++ [entry])

/-- SetLogs (inmem_logstore.go lines 42-47): appends each entry in
order via the Go range loop, modelled as a fold; always returns a nil
error. -/
def SetLogs (entries : InmemLogStore) (new : List Log) : Except String InmemLogStore :=
  Except.ok (new.foldl (fun acc entry => acc ++ [entry]) entries)

/-- One outer iteration of DeleteRange (inmem_logstore.go lines 50-56)
at loop counter j.  The inner range loop scans the current entries for
one whose `Index` field equals j and, when found, removes the slice
element at POSITION j (`append(i.entries[:j], i.entries[j+1:]...)`),
conflating log indices with slice positions.  When every `Index` in
the scanned slice occurs at most once (true of every store the server
builds) the removal fires at most once, which is what this models.
When position j is not inside the slice, the Go slicing expression
reads past the length: depending on the slice's spare capacity it
either panics or resurrects stale memory; that capacity-dependent case
is modelled as `none` and no theorem below relies on it. -/
def deleteStep (entries : InmemLogStore) (j : Nat) : Option InmemLogStore :=
  if entries.any (fun entry => entry.Index == j) then
    if j < entries.length then
      some (entries.take j ++ entries.drop (j + 1))
    else
      none
  else
    some entries

/-- DeleteRange (inmem_logstore.go lines 49-58): the outer loop runs j
from mn (inclusive) to mx (exclusive), applying `deleteStep` on the
store as it stands at each iteration; the Go error result is always
nil, and `none` models a panic inside an iteration. -/
def deleteRangeAux (entries : InmemLogStore) (j : Nat) : Nat → Option InmemLogStore
  | 0 => some entries
  | fuel + 1 =>
    match deleteStep entries j with
    | none => none
    | some entries1 => deleteRangeAux entries1 (j + 1) fuel

/-- DeleteRange entry point: iterates `deleteStep` over `[mn, mx)`. -/
def DeleteRange (entries : InmemLogStore) (mn mx : Nat) : Option InmemLogStore :=
  deleteRangeAux entries mn (mx - mn)

/-- Written from the spec's words for comparison (spec section 3 and
section 6: `DeleteRange(from, to)` removes entries in `[from, to)`):
keep exactly the entries whose `Index` lies outside the half-open
interval, preserving order. -/
def deleteRangeSpec (entries : InmemLogStore) (mn mx : Nat) : InmemLogStore :=
  entries.filter (fun entry => !(mn ≤ entry.Index && entry.Index < mx))

/-- Shorthand for a log entry with the given index and term, empty
command, zero in-flight fields; used for concrete test states. -/
def entryAt (i t : Nat) : Log :=
  { Index := i, Term := t, Command := "", majorityQuorum := 0, count := 0 }

/-- Auxiliary: SetLogs appends its batch to the end of the store. -/
theorem setLogs_eq_append (entries new : List Log) :
    SetLogs entries new = Except.ok (entries ++ new) := by
  unfold SetLogs
  congr 1
  induction new generalizing entries with
  | nil => simp
  | cons e rest ih =>
      simp only [List.foldl_cons]
      rw [ih]
      simp

/-- C5: calling FirstIndex on the empty store panics in the Go code
(it evaluates `i.entries[0]` with no length guard), modelled as
`none`, while LastIndex correctly returns 0; the claim that both
return zero without faulting is violated by FirstIndex. -/
theorem firstIndex_empty_panics :
    FirstIndex ([] : InmemLogStore) = none ∧ LastIndex ([] : InmemLogStore) = 0 :=
  ⟨rfl, rfl⟩

/-- C3: DeleteRange deviates from the specified behaviour.  On the
store with entries of log index 1,2,3 (stored at slice positions
0,1,2), DeleteRange(2,3) should remove exactly the entry with Index 2,
leaving indices 1 and 3; the code instead finds Index 2 at position 1
and then removes slice POSITION 2, deleting the entry with Index 3 and
keeping Index 2. -/
theorem deleteRange_deviates_from_spec :
    DeleteRange [entryAt 1 1, entryAt 2 1, entryAt 3 1] 2 3 =
      some [entryAt 1 1, entryAt 2 1] ∧
    deleteRangeSpec [entryAt 1 1, entryAt 2 1, entryAt 3 1] 2 3 =
      [entryAt 1 1, entryAt 3 1] ∧
    DeleteRange [entryAt 1 1, entryAt 2 1, entryAt 3 1] 2 3 ≠
      some (deleteRangeSpec [entryAt 1 1, entryAt 2 1, entryAt 3 1] 2 3) := by
  refine ⟨rfl, rfl, ?_⟩
  decide

/-- C4 (counterexample): SetLog accepts an entry whose index breaks
contiguity (index 5 appended after last index 1, where the only
contiguous next index would be 2), returns a nil error, and modifies
the store — contradicting the claim that such an append fails and
leaves the store unchanged. -/
theorem setLog_accepts_noncontiguous :
    (entryAt 5 1).Index ≠ LastIndex [entryAt 1 1] + 1 ∧
    SetLog [entryAt 1 1] (entryAt 5 1) = Except.ok [entryAt 1 1, entryAt 5 1] ∧
    ([entryAt 1 1, entryAt 5 1] : InmemLogStore) ≠ [entryAt 1 1] := by
  refine ⟨by decide, rfl, by decide⟩

/-- C4 (amended): SetLog and SetLogs unconditionally append the given
entry (respectively batch, in order) to the end of the store and
return a nil error; no contiguity condition is checked and no input is
ever rejected. -/
theorem setLog_always_appends (entries new : List Log) (entry : Log) :
    SetLog entries entry = Except.ok (entries ++ [entry]) ∧
    SetLogs entries new = Except.ok (entries ++ new) :=
  ⟨rfl, setLogs_eq_append entries new⟩

/-! ## Server state -/

/-- Node lifecycle states (spec section 3; the Go State type). -/
inductive NodeState where
  | Follower
  | Candidate
  | Leader
  | Stopped
  deriving Repr, DecidableEq

/-- Per-node consensus state: the fields of the Go Server struct that
the functions in raft.go read and write.  `votedFor = ""` is the code's
not-yet-voted sentinel; `logs` is the in-memory reference store wired
in by main.go; `applying` models the Go map from index to in-flight
entry as an association list with the most recent insertion first. -/
structure Server where
  currentTerm : Nat
  votedFor : String
  state : NodeState
  leader : String
  localAddress : String
  peers : List String
  commitIndex : Nat
  lastLogIndex : Nat
  lastLogTerm : Nat
  logs : InmemLogStore
  applying : List (Nat × Log)
  deriving Repr, DecidableEq

/-- Modelled from the spec: the setTerm helper lives outside src/ (only
its callers are in raft.go).  Spec section 3: `currentTerm` is
monotonically non-decreasing and `votedFor` is "cleared whenever
`currentTerm` advances", so the vote record is reset exactly when the
stored term strictly increases. -/
def setTerm (t : Nat) (s : Server) : Server :=
  { s with
    currentTerm := t
    votedFor := if s.currentTerm < t then "" else s.votedFor }

/-- Modelled from the spec: setState stores the lifecycle state (spec
section 4.1); the helper itself is outside src/. -/
def setState (st : NodeState) (s : Server) : Server :=
  { s with state := st }

/-- Modelled from the spec: setLeader records the sender as the
best-known current leader (spec section 4.3 step 3). -/
def setLeader (l : String) (s : Server) : Server :=
  { s with leader := l }

/-- Modelled from the spec: setCommitIndex stores the commit marker
(spec section 3, cached markers of replication progress). -/
def setCommitIndex (i : Nat) (s : Server) : Server :=
  { s with commitIndex := i }

/-- Modelled from the spec: setLastLog stores the cached last-log
index/term pair (spec section 3). -/
def setLastLog (i t : Nat) (s : Server) : Server :=
  { s with lastLogIndex := i, lastLogTerm := t }

/-- Modelled from the spec: QuorumSize is `⌊(peers+1)/2⌋ + 1` (spec
section 4.1, Candidate loop), where peers excludes self. -/
def QuorumSize (s : Server) : Nat :=
  (s.peers.length + 1) / 2 + 1

/-! ## RequestVote -/

/-- RequestVote RPC payload (spec section 4.3). -/
structure RequestVoteRequest where
  Term : Nat
  CandidateName : String
  LastLogIndex : Nat
  LastLogTerm : Nat
  deriving Repr, DecidableEq

/-- RequestVote RPC response (spec section 4.3). -/
structure RequestVoteResponse where
  Term : Nat
  VoteGranted : Bool
  deriving Repr, DecidableEq

/-- Modelled from the spec: newRequestVoteRequest, the request
constructor called at raft.go line 65, is declared outside src/; per
the RPC signature `RequestVote(term, candidate, lastLogIndex,
lastLogTerm)` (spec section 4.3) it fills the four fields
positionally. -/
def newRequestVoteRequest (term : Nat) (candidate : String) (lastLogIndex lastLogTerm : Nat) :
    RequestVoteRequest :=
  { Term := term, CandidateName := candidate
    LastLogIndex := lastLogIndex, LastLogTerm := lastLogTerm }

/-- The up-to-dateness rejection condition of processRequestVote
(raft.go line 296): reject when the local cached last log is strictly
ahead of the request's on either component. -/
def logUpToDateReject (s : Server) (req : RequestVoteRequest) : Bool :=
  decide (s.lastLogIndex > req.LastLogIndex) || decide (s.lastLogTerm > req.LastLogTerm)

/-- Tail of processRequestVote (raft.go lines 293-306), factored out
because the Go control flow falls through to it from two branches: the
up-to-dateness check, then on success record `votedFor = candidate`
and answer granted with the current term. -/
def grantCheck (s : Server) (resp : RequestVoteResponse) (req : RequestVoteRequest) :
    RequestVoteResponse × Server :=
  if logUpToDateReject s req then
    (resp, s)
  else
    ({ Term := s.currentTerm, VoteGranted := true },
     { s with votedFor := req.CandidateName })

/-- processRequestVote (raft.go lines 265-307): reject stale terms;
adopt strictly larger terms (updating the response term to the new
current term); at the same term reject when already voted for a
different candidate; then the up-to-dateness check and the grant. -/
def processRequestVote (s : Server) (req : RequestVoteRequest) :
    RequestVoteResponse × Server :=
  if req.Term < s.currentTerm then
    ({ Term := s.currentTerm, VoteGranted := false }, s)
  else if s.currentTerm < req.Term then
    grantCheck (setTerm req.Term s)
      { Term := (setTerm req.Term s).currentTerm, VoteGranted := false } req
  else if s.votedFor ≠ "" ∧ s.votedFor ≠ req.CandidateName then
    ({ Term := s.currentTerm, VoteGranted := false }, s)
  else
    grantCheck s { Term := s.currentTerm, VoteGranted := false } req

/-- A sequence of RequestVote requests processed in order, returning
the responses and the final server state. -/
def processVotes (s : Server) : List RequestVoteRequest → List RequestVoteResponse × Server
  | [] => ([], s)
  | req :: rest =>
    let (resp, s1) := processRequestVote s req
    let (resps, s2) := processVotes s1 rest
    (resp :: resps, s2)

/-- Final state after a sequence of RequestVote requests. -/
def afterVotes (s : Server) (reqs : List RequestVoteRequest) : Server :=
  (processVotes s reqs).2

/-! ## Vote response handling -/

/-- processRequestVoteResponse (raft.go lines 309-319): true (counted
as granted) exactly when the response is granted at the node's current
term; a strictly higher response term is adopted with a step-down to
Follower. -/
def processRequestVoteResponse (s : Server) (resp : RequestVoteResponse) : Bool × Server :=
  if resp.VoteGranted = true ∧ resp.Term = s.currentTerm then
    (true, s)
  else if s.currentTerm < resp.Term then
    (false, setState NodeState.Follower (setTerm resp.Term s))
  else
    (false, s)

/-! ## Concrete states for witnesses and counterexamples -/

/-- A fresh follower at term 0 with two peers and an empty log. -/
def baseServer : Server :=
  { currentTerm := 0, votedFor := "", state := NodeState.Follower
    leader := "", localAddress := "n0", peers := ["n1", "n2"]
    commitIndex := 0, lastLogIndex := 0, lastLogTerm := 0
    logs := [], applying := [] }

/-! ## C2: at most one vote per term -/

/-- Invariant carried between RequestVote calls once a vote has been
granted to candidate A at term T: the term has moved past T, or it is
still T and the vote record still names A. -/
def VotedInv (T : Nat) (A : String) (s : Server) : Prop :=
  T < s.currentTerm ∨ (s.currentTerm = T ∧ s.votedFor = A)

/-- When processRequestVote grants, the response term is the request
term, and the resulting state has adopted that term and recorded the
vote for the requesting candidate. -/
theorem processRequestVote_granted (s : Server) (req : RequestVoteRequest)
    (h : (processRequestVote s req).1.VoteGranted = true) :
    (processRequestVote s req).1.Term = req.Term ∧
    (processRequestVote s req).2.currentTerm = req.Term ∧
    (processRequestVote s req).2.votedFor = req.CandidateName := by
  unfold processRequestVote grantCheck at h ⊢
  split_ifs at h ⊢ with hc1 hc2 hc4 hc3 hc5
  all_goals first
    | exact ⟨rfl, rfl, rfl⟩
    | exact ⟨show s.currentTerm = req.Term by omega,
        show s.currentTerm = req.Term by omega, rfl⟩

/-- A single processRequestVote call preserves the voted-invariant,
provided the recorded candidate name is not the empty not-yet-voted
sentinel. -/
theorem processRequestVote_preserves_inv (T : Nat) (A : String) (hA : A ≠ "")
    (s : Server) (req : RequestVoteRequest) (hinv : VotedInv T A s) :
    VotedInv T A (processRequestVote s req).2 := by
  have hT : T ≤ s.currentTerm := by
    rcases hinv with h | ⟨he, _⟩ <;> omega
  unfold processRequestVote grantCheck
  split_ifs with hc1 hc2 hc4 hc3 hc5
  · exact hinv
  · exact Or.inl (show T < req.Term by omega)
  · exact Or.inl (show T < req.Term by omega)
  · exact hinv
  · exact hinv
  · rcases hinv with h | ⟨he, hv⟩
    · exact Or.inl (show T < s.currentTerm from h)
    · refine Or.inr ⟨show s.currentTerm = T from he, ?_⟩
      show req.CandidateName = A
      have hvne : s.votedFor ≠ "" := by
        rw [hv]
        exact hA
      have hcand : s.votedFor = req.CandidateName := by
        by_contra hne
        exact hc3 ⟨hvne, hne⟩
      rw [← hcand, hv]

/-- Under the voted-invariant for term T and candidate A (A non-empty),
any further grant whose request term is T must go to A again. -/
theorem processRequestVote_grant_forces (T : Nat) (A : String) (hA : A ≠ "")
    (s : Server) (req : RequestVoteRequest) (hinv : VotedInv T A s)
    (hg : (processRequestVote s req).1.VoteGranted = true)
    (ht : req.Term = T) :
    req.CandidateName = A := by
  rcases hinv with hlt | ⟨he, hv⟩
  · exfalso
    unfold processRequestVote at hg
    rw [if_pos (show req.Term < s.currentTerm by omega)] at hg
    simp at hg
  · unfold processRequestVote grantCheck at hg
    split_ifs at hg with hc1 hc2 hc4 hc3 hc5
    all_goals first
      | omega
      | (have hvne : s.votedFor ≠ "" := by
           rw [hv]
           exact hA
         have hcand : s.votedFor = req.CandidateName := by
           by_contra hne
           exact hc3 ⟨hvne, hne⟩
         rw [← hcand, hv])

/-- The invariant survives any further sequence of RequestVote
requests. -/
theorem afterVotes_preserves_inv (T : Nat) (A : String) (hA : A ≠ "")
    (reqs : List RequestVoteRequest) (s : Server) (hinv : VotedInv T A s) :
    VotedInv T A (afterVotes s reqs) := by
  induction reqs generalizing s with
  | nil => exact hinv
  | cons r rest ih =>
      have hstep := processRequestVote_preserves_inv T A hA s r hinv
      have : afterVotes s (r :: rest) = afterVotes (processRequestVote s r).2 rest := by
        simp [afterVotes, processVotes]
      rw [this]
      exact ih _ hstep

/-- Splitting a request sequence splits the state evolution. -/
theorem afterVotes_append (s : Server) (xs ys : List RequestVoteRequest) :
    afterVotes s (xs ++ ys) = afterVotes (afterVotes s xs) ys := by
  induction xs generalizing s with
  | nil => simp [afterVotes, processVotes]
  | cons r rest ih =>
      have h1 : afterVotes s ((r :: rest) ++ ys) =
          afterVotes (processRequestVote s r).2 (rest ++ ys) := by
        simp [afterVotes, processVotes]
      have h2 : afterVotes s (r :: rest) = afterVotes (processRequestVote s r).2 rest := by
        simp [afterVotes, processVotes]
      rw [h1, h2, ih]

/-- C2 (counterexample): the claim fails when the first granted
candidate's name is the empty string, because the empty string is also
the code's not-yet-voted sentinel (raft.go line 288 only rejects when
`s.votedFor != "" && s.votedFor != req.CandidateName`).  From a fresh
follower, a request by candidate "" at term 1 is granted while
currentTerm is 1; a later request by candidate "b" with the same term
1 is also granted, since the recorded `votedFor = ""` passes the
already-voted guard.  Two different candidates are granted in the same
term 1.  The trace does not depend on how the out-of-src setTerm
helper treats votedFor: the fresh follower's votedFor is already
empty, and the deciding guard runs in the equal-term branch, which
never calls setTerm. -/
theorem requestVote_two_grants_same_term :
    (processRequestVote baseServer
        { Term := 1, CandidateName := "", LastLogIndex := 1, LastLogTerm := 0 }).1 =
      { Term := 1, VoteGranted := true } ∧
    (afterVotes baseServer
        [{ Term := 1, CandidateName := "", LastLogIndex := 1, LastLogTerm := 0 }]).currentTerm
      = 1 ∧
    (processRequestVote
        (afterVotes baseServer
          [{ Term := 1, CandidateName := "", LastLogIndex := 1, LastLogTerm := 0 }])
        { Term := 1, CandidateName := "b", LastLogIndex := 1, LastLogTerm := 0 }).1 =
      { Term := 1, VoteGranted := true } ∧
    ({ Term := 1, CandidateName := "b", LastLogIndex := 1, LastLogTerm := 0 } :
        RequestVoteRequest).Term =
      (processRequestVote baseServer
        { Term := 1, CandidateName := "", LastLogIndex := 1, LastLogTerm := 0 }).1.Term ∧
    ("" : String) ≠ "b" := by
  refine ⟨by decide, by decide, by decide, by decide, by decide⟩

/-- C2 (amended): at most one candidate is granted a vote per term,
provided the first granted candidate's name is non-empty (the empty
string is the code's not-yet-voted sentinel, and a request carrying it
escapes the already-voted guard).  Claim mapping: "responds
voteGranted=true to candidate A while currentTerm is T" is h1 together
with hterm — a grant's response term is the node's currentTerm at
response time (processRequestVote_granted); "no later call with the
same term T" quantifies over every continuation rs2 and request r2
with r2.Term = T.  The conclusion forces the later grantee to be the
same candidate. -/
theorem requestVote_one_vote_per_term (s0 : Server)
    (rs1 : List RequestVoteRequest) (r1 : RequestVoteRequest)
    (rs2 : List RequestVoteRequest) (r2 : RequestVoteRequest)
    (hname : r1.CandidateName ≠ "")
    (h1 : (processRequestVote (afterVotes s0 rs1) r1).1.VoteGranted = true)
    (h2 : (processRequestVote (afterVotes s0 (rs1 ++ r1 :: rs2)) r2).1.VoteGranted = true)
    (hterm : r2.Term = (processRequestVote (afterVotes s0 rs1) r1).1.Term) :
    r2.CandidateName = r1.CandidateName := by
  set sA := afterVotes s0 rs1 with hsA
  obtain ⟨hrespT, hsT, hsV⟩ := processRequestVote_granted sA r1 h1
  have hinv1 : VotedInv r1.Term r1.CandidateName (processRequestVote sA r1).2 :=
    Or.inr ⟨hsT, hsV⟩
  have hsplit : afterVotes s0 (rs1 ++ r1 :: rs2) =
      afterVotes (processRequestVote sA r1).2 rs2 := by
    rw [afterVotes_append, ← hsA]
    simp [afterVotes, processVotes]
  have hinv2 : VotedInv r1.Term r1.CandidateName (afterVotes s0 (rs1 ++ r1 :: rs2)) := by
    rw [hsplit]
    exact afterVotes_preserves_inv _ _ hname rs2 _ hinv1
  exact processRequestVote_grant_forces _ _ hname _ r2 hinv2 h2 (by rw [hterm, hrespT])

/-- Concrete vote request by candidate "a" at term 1, for witnesses. -/
def voteReqA1 : RequestVoteRequest :=
  { Term := 1, CandidateName := "a", LastLogIndex := 1, LastLogTerm := 0 }

/-- A second concrete vote request by candidate "a" at term 1. -/
def voteReqA2 : RequestVoteRequest :=
  { Term := 1, CandidateName := "a", LastLogIndex := 2, LastLogTerm := 0 }

/-- C2 (witness): a concrete run exercising the amended theorem: from
a fresh follower, candidate "a" is granted at term 1, and a second
granted request at term 1 is forced to name "a" again. -/
theorem requestVote_one_vote_per_term_witness :
    (processRequestVote baseServer voteReqA1).1.VoteGranted = true ∧
    voteReqA2.CandidateName = voteReqA1.CandidateName := by
  refine ⟨by decide, ?_⟩
  exact requestVote_one_vote_per_term baseServer [] voteReqA1 [] voteReqA2
    (by decide) (by decide) (by decide) (by decide)

/-! ## C8: vote response handling -/

/-- C8: a vote response is counted as granted exactly when voteGranted
is true and the response term equals the node's current term; and a
response with a strictly higher term makes the node adopt it and step
down to Follower, regardless of voteGranted. -/
theorem voteResponse_count_and_stepdown (s : Server) (resp : RequestVoteResponse) :
    ((processRequestVoteResponse s resp).1 = true ↔
      (resp.VoteGranted = true ∧ resp.Term = s.currentTerm)) ∧
    (s.currentTerm < resp.Term →
      (processRequestVoteResponse s resp).2.currentTerm = resp.Term ∧
      (processRequestVoteResponse s resp).2.state = NodeState.Follower) := by
  constructor
  · unfold processRequestVoteResponse
    split_ifs with h1 h2 <;> simp_all
  · intro hlt
    have hne : ¬(resp.VoteGranted = true ∧ resp.Term = s.currentTerm) := by
      rintro ⟨_, he⟩
      omega
    unfold processRequestVoteResponse
    rw [if_neg hne, if_pos hlt]
    simp [setTerm, setState]

/-- C8 (witness): the spec's scenario — a candidate at term 4 receives
a response with term 5 and voteGranted false: the response is not
counted, term 5 is adopted, and the node reverts to Follower. -/
theorem voteResponse_count_and_stepdown_witness :
    (4 : Nat) < 5 ∧
    (processRequestVoteResponse
        { baseServer with currentTerm := 4, state := NodeState.Candidate }
        { Term := 5, VoteGranted := false }).2.currentTerm = 5 ∧
    (processRequestVoteResponse
        { baseServer with currentTerm := 4, state := NodeState.Candidate }
        { Term := 5, VoteGranted := false }).2.state = NodeState.Follower := by
  refine ⟨by decide, ?_, ?_⟩
  · exact ((voteResponse_count_and_stepdown
      { baseServer with currentTerm := 4, state := NodeState.Candidate }
      { Term := 5, VoteGranted := false }).2 (by decide)).1
  · exact ((voteResponse_count_and_stepdown
      { baseServer with currentTerm := 4, state := NodeState.Candidate }
      { Term := 5, VoteGranted := false }).2 (by decide)).2

/-! ## AppendEntries -/

/-- AppendEntries RPC payload (spec section 4.3). -/
structure AppendEntryRequest where
  Term : Nat
  Leader : String
  PrevLogIndex : Nat
  PrevLogTerm : Nat
  Entries : List Log
  LeaderCommitIndex : Nat
  deriving Repr, DecidableEq

/-- AppendEntries RPC response (spec section 4.3). -/
structure AppendEntryResponse where
  Term : Nat
  LastLogIndex : Nat
  Success : Bool
  deriving Repr, DecidableEq

/-- Steps 2-3 of processAppendEntries (raft.go lines 194-199): when the
request term is strictly larger or the node is not a Follower, adopt
the term, step down to Follower and echo the request term in the
response; otherwise keep the state and the initial response
unchanged. -/
def appendInit (s : Server) (req : AppendEntryRequest) : Server × AppendEntryResponse :=
  if s.currentTerm < req.Term ∨ s.state ≠ NodeState.Follower then
    (setState NodeState.Follower (setTerm req.Term s),
     { Term := req.Term, LastLogIndex := s.lastLogIndex, Success := false })
  else
    (s, { Term := s.currentTerm, LastLogIndex := s.lastLogIndex, Success := false })

/-- The locally resolved previous-log term (raft.go lines 201-215):
the cached last-log term when prevLogIndex equals the cached last
index, otherwise a store lookup; `none` models the GetLog error
return. -/
def appendPrevTerm (s : Server) (req : AppendEntryRequest) : Option Nat :=
  if req.PrevLogIndex = s.lastLogIndex then
    some s.lastLogTerm
  else
    match GetLog s.logs req.PrevLogIndex with
    | some prevLog => some prevLog.Term
    | none => none

/-- Steps 7-8 of processAppendEntries (raft.go lines 246-255): advance
commitIndex to min(leaderCommitIndex, cached lastLogIndex) when the
leader's commit index is ahead, then answer success. -/
def appendCommit (s : Server) (resp : AppendEntryResponse) (req : AppendEntryRequest) :
    AppendEntryResponse × Server :=
  if s.commitIndex < req.LeaderCommitIndex then
    ({ resp with Success := true },
     setCommitIndex (Nat.min req.LeaderCommitIndex s.lastLogIndex) s)
  else
    ({ resp with Success := true }, s)

/-- Tail of the entries block (raft.go lines 236-243) once the batch
has been written: advance the cached last-log markers to the last
entry of the batch, report the new last index, and fall through to the
commit-index update. -/
def appendEntriesFinish (s : Server) (resp : AppendEntryResponse) (req : AppendEntryRequest)
    (first : Log) (rest : List Log) (logs2 : InmemLogStore) :
    AppendEntryResponse × Server :=
  appendCommit
    (setLastLog (List.getLastD rest first).Index (List.getLastD rest first).Term
      { s with logs := logs2 })
    { resp with LastLogIndex := (List.getLastD rest first).Index } req

/-- Steps 5-6 of processAppendEntries (raft.go lines 222-244): when
entries are present and the first one's index is not past the cached
last index, delete the range `[first.Index, lastLogIndex)` first (a
panic inside DeleteRange propagates as `none`; its error return is
always nil), then append the batch via SetLogs (whose error return is
always nil, making that return path dead) and finish. -/
def appendEntriesBlock (s : Server) (resp : AppendEntryResponse) (req : AppendEntryRequest) :
    Option (AppendEntryResponse × Server) :=
  match req.Entries with
  | [] => some (appendCommit s resp req)
  | first :: rest =>
    match (if first.Index ≤ s.lastLogIndex then
             DeleteRange s.logs first.Index s.lastLogIndex
           else some s.logs) with
    | none => none
    | some logs1 =>
      match SetLogs logs1 (first :: rest) with
      | Except.error _ => some (resp, { s with logs := logs1 })
      | Except.ok logs2 => some (appendEntriesFinish s resp req first rest logs2)

/-- Step 4 of processAppendEntries (raft.go lines 203-220): the
consistency check; a missing previous entry or a term mismatch answers
the so-far response (success false) with no further mutation. -/
def appendConsistency (s : Server) (resp : AppendEntryResponse) (req : AppendEntryRequest) :
    Option (AppendEntryResponse × Server) :=
  match appendPrevTerm s req with
  | none => some (resp, s)
  | some prevLogTerm =>
    if req.PrevLogTerm ≠ prevLogTerm then some (resp, s)
    else appendEntriesBlock s resp req

/-- processAppendEntries (raft.go lines 177-256): stale-term rejection,
step-down, leader recording, consistency check, truncate-and-append,
commit-index update.  `none` models a runtime panic inside
DeleteRange. -/
def processAppendEntries (s : Server) (req : AppendEntryRequest) :
    Option (AppendEntryResponse × Server) :=
  if req.Term < s.currentTerm then
    some ({ Term := s.currentTerm, LastLogIndex := s.lastLogIndex, Success := false }, s)
  else
    appendConsistency (setLeader req.Leader (appendInit s req).1) (appendInit s req).2 req

/-- The exact failure condition of the code's consistency check,
stated over the pre-call state: when prevLogIndex equals the cached
last index the comparison is against the cached last term, otherwise
against the stored entry's term, a missing entry failing outright. -/
def consistencyCheckFails (s : Server) (req : AppendEntryRequest) : Bool :=
  if req.PrevLogIndex = s.lastLogIndex then
    req.PrevLogTerm != s.lastLogTerm
  else
    match GetLog s.logs req.PrevLogIndex with
    | some prevLog => req.PrevLogTerm != prevLog.Term
    | none => true

/-- The state reaching the consistency check agrees with the pre-call
state on the cached log markers, the store, and the commit index; only
term, vote, lifecycle state and leader may have changed. -/
theorem appendInit_preserves (s : Server) (req : AppendEntryRequest) :
    (setLeader req.Leader (appendInit s req).1).lastLogIndex = s.lastLogIndex ∧
    (setLeader req.Leader (appendInit s req).1).lastLogTerm = s.lastLogTerm ∧
    (setLeader req.Leader (appendInit s req).1).logs = s.logs ∧
    (setLeader req.Leader (appendInit s req).1).commitIndex = s.commitIndex ∧
    (appendInit s req).2.Success = false := by
  unfold appendInit
  split_ifs <;> exact ⟨rfl, rfl, rfl, rfl, rfl⟩

/-- A failing consistency check makes appendConsistency answer the
so-far response with the state untouched. -/
theorem appendConsistency_reject (s : Server) (resp : AppendEntryResponse)
    (req : AppendEntryRequest) (h : consistencyCheckFails s req = true) :
    appendConsistency s resp req = some (resp, s) := by
  unfold appendConsistency appendPrevTerm
  unfold consistencyCheckFails at h
  split_ifs at h ⊢ with hidx
  · have hne : req.PrevLogTerm ≠ s.lastLogTerm := by
      simpa using h
    simp [hne]
  · cases hg : GetLog s.logs req.PrevLogIndex with
    | none => rfl
    | some prevLog =>
        rw [hg] at h
        have hne : req.PrevLogTerm ≠ prevLog.Term := by
          simpa using h
        simp [hne]

/-- C1 (amended): whenever the code's consistency check fails — the
request's prevLogTerm differs from the cached last-log term when
prevLogIndex equals the cached last index, and otherwise differs from
the stored entry's term or the entry is absent — processAppendEntries
returns success=false and leaves the log store's entries completely
unmodified. -/
theorem appendEntries_reject_no_mutation (s : Server) (req : AppendEntryRequest)
    (h : consistencyCheckFails s req = true) :
    ∃ resp s', processAppendEntries s req = some (resp, s') ∧
      resp.Success = false ∧ s'.logs = s.logs := by
  by_cases hterm : req.Term < s.currentTerm
  · exact ⟨_, s, by unfold processAppendEntries; rw [if_pos hterm], rfl, rfl⟩
  · obtain ⟨hli, hlt, hlogs, hci, hsucc⟩ := appendInit_preserves s req
    have hfail2 : consistencyCheckFails (setLeader req.Leader (appendInit s req).1) req = true := by
      unfold consistencyCheckFails at h ⊢
      rw [hli, hlt, hlogs]
      exact h
    refine ⟨(appendInit s req).2, setLeader req.Leader (appendInit s req).1, ?_, hsucc, hlogs⟩
    unfold processAppendEntries
    rw [if_neg hterm]
    exact appendConsistency_reject _ _ _ hfail2

/-- C1 (witness): the spec's scenario — a follower with cached last
log (index 5, term 3) receives AppendEntries(term=3, prevLogIndex=5,
prevLogTerm=2, no entries): rejected with the log unchanged. -/
theorem appendEntries_reject_no_mutation_witness :
    consistencyCheckFails
      { baseServer with currentTerm := 3, lastLogIndex := 5, lastLogTerm := 3 }
      { Term := 3, Leader := "n1", PrevLogIndex := 5, PrevLogTerm := 2
        Entries := [], LeaderCommitIndex := 0 } = true ∧
    (∃ resp s',
      processAppendEntries
        { baseServer with currentTerm := 3, lastLogIndex := 5, lastLogTerm := 3 }
        { Term := 3, Leader := "n1", PrevLogIndex := 5, PrevLogTerm := 2
          Entries := [], LeaderCommitIndex := 0 } = some (resp, s') ∧
      resp.Success = false ∧
      s'.logs = ({ baseServer with currentTerm := 3, lastLogIndex := 5, lastLogTerm := 3 } :
        Server).logs) := by
  refine ⟨by decide, ?_⟩
  exact appendEntries_reject_no_mutation _ _ (by decide)

/-- C1 (counterexample to the claim as stated): on a fresh follower
with an empty log, prevLogIndex 0 has no locally stored entry (GetLog
fails), yet an AppendEntries with prevLogIndex=0, prevLogTerm=0
succeeds, because the code compares against the cached last-log fields
(0, 0) whenever prevLogIndex equals the cached last index and never
consults the store there. -/
theorem appendEntries_accepts_missing_prev_entry :
    GetLog ({ baseServer with currentTerm := 1 } : Server).logs 0 = none ∧
    (processAppendEntries { baseServer with currentTerm := 1 }
      { Term := 1, Leader := "n1", PrevLogIndex := 0, PrevLogTerm := 0
        Entries := [], LeaderCommitIndex := 0 }).map (fun r => r.1.Success) =
      some true := by
  exact ⟨rfl, by decide⟩

/-- appendCommit answers success and applies exactly the specified
commit-index update, leaving the cached last index alone. -/
theorem appendCommit_spec (s : Server) (resp : AppendEntryResponse)
    (req : AppendEntryRequest) :
    (appendCommit s resp req).1.Success = true ∧
    (appendCommit s resp req).2.commitIndex =
      (if s.commitIndex < req.LeaderCommitIndex then
        Nat.min req.LeaderCommitIndex s.lastLogIndex
       else s.commitIndex) ∧
    (appendCommit s resp req).2.lastLogIndex = s.lastLogIndex := by
  unfold appendCommit setCommitIndex
  split_ifs with hc <;> exact ⟨rfl, rfl, rfl⟩

/-- C6: whenever processAppendEntries passes the term and consistency
checks (it returns success=true), the new commit index is
min(leaderCommitIndex, lastLogIndex-after-append) if the leader's
commit index was strictly ahead of the node's, and the old commit
index otherwise. -/
theorem appendEntries_commit_update (s : Server) (req : AppendEntryRequest)
    (resp : AppendEntryResponse) (s' : Server)
    (h : processAppendEntries s req = some (resp, s'))
    (hs : resp.Success = true) :
    s'.commitIndex =
      if s.commitIndex < req.LeaderCommitIndex then
        Nat.min req.LeaderCommitIndex s'.lastLogIndex
      else s.commitIndex := by
  obtain ⟨hli, hlt, hlogs, hci, hsucc⟩ := appendInit_preserves s req
  unfold processAppendEntries at h
  split_ifs at h with hterm
  · have hr : ({ Term := s.currentTerm, LastLogIndex := s.lastLogIndex, Success := false } :
        AppendEntryResponse) = resp := congrArg Prod.fst (Option.some.inj h)
    rw [← hr] at hs
    simp at hs
  · unfold appendConsistency at h
    cases hp : appendPrevTerm (setLeader req.Leader (appendInit s req).1) req with
    | none =>
        rw [hp] at h
        have hr : (appendInit s req).2 = resp := congrArg Prod.fst (Option.some.inj h)
        rw [← hr, hsucc] at hs
        exact absurd hs (by simp)
    | some plt =>
        rw [hp] at h
        dsimp only at h
        split_ifs at h with hne
        · have hr : (appendInit s req).2 = resp := congrArg Prod.fst (Option.some.inj h)
          rw [← hr, hsucc] at hs
          exact absurd hs (by simp)
        · unfold appendEntriesBlock at h
          cases hE : req.Entries with
          | nil =>
              rw [hE] at h
              have hr2 : (appendCommit (setLeader req.Leader (appendInit s req).1)
                  (appendInit s req).2 req).2 = s' :=
                congrArg Prod.snd (Option.some.inj h)
              obtain ⟨hS, hcomm, hlast⟩ := appendCommit_spec
                (setLeader req.Leader (appendInit s req).1) (appendInit s req).2 req
              rw [hr2] at hcomm hlast
              rw [hcomm, hci, ← hlast]
          | cons first rest =>
              rw [hE] at h
              dsimp only at h
              cases hd : (if first.Index ≤ (setLeader req.Leader (appendInit s req).1).lastLogIndex
                  then DeleteRange (setLeader req.Leader (appendInit s req).1).logs first.Index
                    (setLeader req.Leader (appendInit s req).1).lastLogIndex
                  else some (setLeader req.Leader (appendInit s req).1).logs) with
              | none =>
                  rw [hd] at h
                  dsimp only at h
                  exact Option.noConfusion h
              | some logs1 =>
                  rw [hd] at h
                  dsimp only at h
                  rw [setLogs_eq_append logs1 (first :: rest)] at h
                  have hfin : appendEntriesFinish (setLeader req.Leader (appendInit s req).1)
                      (appendInit s req).2 req first rest (logs1 ++ (first :: rest)) =
                      (resp, s') := Option.some.inj h
                  unfold appendEntriesFinish at hfin
                  have hr2 := congrArg Prod.snd hfin
                  obtain ⟨hS, hcomm, hlast⟩ := appendCommit_spec
                    (setLastLog (List.getLastD rest first).Index (List.getLastD rest first).Term
                      { (setLeader req.Leader (appendInit s req).1) with
                          logs := logs1 ++ (first :: rest) })
                    { (appendInit s req).2 with
                        LastLogIndex := (List.getLastD rest first).Index } req
                  rw [hr2] at hcomm hlast
                  have h3ci : (setLastLog (List.getLastD rest first).Index
                      (List.getLastD rest first).Term
                      { (setLeader req.Leader (appendInit s req).1) with
                          logs := logs1 ++ (first :: rest) }).commitIndex = s.commitIndex := hci
                  rw [hcomm, h3ci, ← hlast]

/-- The server state expected after the C6 witness run below: leader
recorded, one entry appended, markers advanced, commit index 1. -/
def c6After : Server :=
  { baseServer with
    currentTerm := 1, leader := "n1", logs := [entryAt 1 1]
    lastLogIndex := 1, lastLogTerm := 1, commitIndex := 1 }

/-- C6 (witness): a follower at term 1 with an empty log accepts one
entry with leaderCommitIndex 7 and advances commitIndex to
min(7, 1) = 1. -/
theorem appendEntries_commit_update_witness :
    processAppendEntries { baseServer with currentTerm := 1 }
      { Term := 1, Leader := "n1", PrevLogIndex := 0, PrevLogTerm := 0
        Entries := [entryAt 1 1], LeaderCommitIndex := 7 } =
      some ({ Term := 1, LastLogIndex := 1, Success := true }, c6After) ∧
    c6After.commitIndex =
      if ({ baseServer with currentTerm := 1 } : Server).commitIndex < 7 then
        Nat.min 7 c6After.lastLogIndex
      else ({ baseServer with currentTerm := 1 } : Server).commitIndex := by
  refine ⟨by decide, ?_⟩
  exact appendEntries_commit_update { baseServer with currentTerm := 1 }
    { Term := 1, Leader := "n1", PrevLogIndex := 0, PrevLogTerm := 0
      Entries := [entryAt 1 1], LeaderCommitIndex := 7 }
    { Term := 1, LastLogIndex := 1, Success := true } c6After (by decide) (by decide)

/-! ## Leader-side dispatch (dispatchLog) -/

/-- The entry as assigned by dispatchLog (raft.go lines 127-133):
index one past the cached last index, the current term, the current
quorum size, and a zero acknowledgment count. -/
def assignEntry (s : Server) (applyLog : Log) : Log :=
  { applyLog with
    Term := s.currentTerm
    Index := s.lastLogIndex + 1
    majorityQuorum := QuorumSize s
    count := 0 }

/-- dispatchLog (raft.go lines 126-145).  Modelled from the spec: in
Go the server's log store has the LogStore interface type, whose
`setLog(entry) -> ok | Err` may fail (spec section 6), so the store
and its setLog operation are parameters here; the in-memory reference
implementation instantiates them with `SetLog`.  On a setLog error the
function returns at once (no in-flight map insertion, no marker
update); on success it records the entry under its index in the
in-flight map and advances the cached markers.  The follower wake-up
notification (asyncNotifyCh) does not touch the modelled state. -/
def dispatchLog (σ : Type) (setLogOp : σ → Log → Except String σ) (store : σ)
    (s : Server) (applyLog : Log) : Server × σ :=
  match setLogOp store (assignEntry s applyLog) with
  | Except.error _ => (s, store)
  | Except.ok store2 =>
      (setLastLog (s.lastLogIndex + 1) s.currentTerm
        { s with applying := (s.lastLogIndex + 1, assignEntry s applyLog) :: s.applying },
       store2)

/-- C9: the dispatched entry gets index lastLogIndex+1, term
currentTerm, majorityQuorum = quorum size and count = 0; when setLog
fails the proposal is dropped with the server state (cached markers
and in-flight map included) unchanged; when it succeeds the in-flight
map gains the entry and the cached markers advance to
(lastLogIndex + 1, currentTerm). -/
theorem dispatchLog_spec (σ : Type) (setLogOp : σ → Log → Except String σ)
    (store : σ) (s : Server) (applyLog : Log) :
    ((assignEntry s applyLog).Index = s.lastLogIndex + 1 ∧
     (assignEntry s applyLog).Term = s.currentTerm ∧
     (assignEntry s applyLog).majorityQuorum = QuorumSize s ∧
     (assignEntry s applyLog).count = 0) ∧
    (∀ msg, setLogOp store (assignEntry s applyLog) = Except.error msg →
      dispatchLog σ setLogOp store s applyLog = (s, store)) ∧
    (∀ store2, setLogOp store (assignEntry s applyLog) = Except.ok store2 →
      (dispatchLog σ setLogOp store s applyLog).1.lastLogIndex = s.lastLogIndex + 1 ∧
      (dispatchLog σ setLogOp store s applyLog).1.lastLogTerm = s.currentTerm ∧
      (dispatchLog σ setLogOp store s applyLog).1.applying =
        (s.lastLogIndex + 1, assignEntry s applyLog) :: s.applying ∧
      (dispatchLog σ setLogOp store s applyLog).2 = store2) := by
  refine ⟨⟨rfl, rfl, rfl, rfl⟩, ?_, ?_⟩
  · intro msg hmsg
    unfold dispatchLog
    rw [hmsg]
  · intro store2 hok
    unfold dispatchLog
    rw [hok]
    exact ⟨rfl, rfl, rfl, rfl⟩

/-- A setLog implementation that always fails, exercising the
storage-failure branch of dispatchLog. -/
def failSetLog : InmemLogStore → Log → Except String InmemLogStore :=
  fun _ _ => Except.error "setLog failed"

/-- C9 (witness): with a failing store the proposal at a term-2 leader
is dropped and nothing changes; with the in-memory store's SetLog the
cached last index advances by one. -/
theorem dispatchLog_spec_witness :
    failSetLog [] (assignEntry { baseServer with currentTerm := 2 } (entryAt 0 0)) =
      Except.error "setLog failed" ∧
    dispatchLog InmemLogStore failSetLog [] { baseServer with currentTerm := 2 } (entryAt 0 0) =
      ({ baseServer with currentTerm := 2 }, []) ∧
    (dispatchLog InmemLogStore SetLog [] { baseServer with currentTerm := 2 }
      (entryAt 0 0)).1.lastLogIndex =
      ({ baseServer with currentTerm := 2 } : Server).lastLogIndex + 1 := by
  refine ⟨rfl, ?_, ?_⟩
  · exact (dispatchLog_spec InmemLogStore failSetLog []
      { baseServer with currentTerm := 2 } (entryAt 0 0)).2.1 "setLog failed" rfl
  · exact ((dispatchLog_spec InmemLogStore SetLog []
      { baseServer with currentTerm := 2 } (entryAt 0 0)).2.2 _ rfl).1

/-! ## Candidate loop -/

/-- The two inbound RPC payload kinds, matched exhaustively (the Go
default case answers an error without touching state and cannot arise
in this sum type). -/
inductive RPCCmd where
  | append (req : AppendEntryRequest)
  | vote (req : RequestVoteRequest)
  deriving Repr, DecidableEq

/-- processRPC (raft.go lines 162-175): dispatch on the payload kind;
only the resulting server state matters to the loops; `none` models a
panic inside the append handler. -/
def processRPC (s : Server) (c : RPCCmd) : Option Server :=
  match c with
  | RPCCmd.append req => (processAppendEntries s req).map (fun r => r.2)
  | RPCCmd.vote req => some (processRequestVote s req).2

/-- The events the candidate's select (raft.go lines 79-92) can
observe, in the order they are consumed from the channels. -/
inductive CandEvent where
  | stop
  | voteResp (resp : RequestVoteResponse)
  | rpc (cmd : RPCCmd)
  | timeout
  deriving Repr, DecidableEq

/-- The vote-round state update (raft.go lines 60-61): increment the
term and vote for self. -/
def voteRound (s : Server) : Server :=
  { s with currentTerm := s.currentTerm + 1, votedFor := s.localAddress }

/-- The requests broadcast at raft.go lines 63-67, one per peer,
built after the term increment; note the literal arguments 1 and 0
passed as lastLogIndex and lastLogTerm. -/
def candidateBroadcast (s : Server) : List (String × RequestVoteRequest) :=
  s.peers.map (fun peer => (peer, newRequestVoteRequest s.currentTerm s.localAddress 1 0))

mutual

/-- Top of runAsCandidate's for-loop (raft.go lines 58-77): while the
state is still Candidate, run the vote-round setup when doVote is set
(term increment, self-vote, broadcast to every peer, votesGranted
reset to 1), then continue with the quorum check; otherwise return
with the unconsumed events.  `sent` accumulates every request
broadcast so far and `none` models a panic inside an RPC handler. -/
def candLoop (s : Server) (doVote : Bool) (votes : Nat) (evs : List CandEvent)
    (sent : List (String × RequestVoteRequest)) :
    Option (Server × List CandEvent × List (String × RequestVoteRequest)) :=
  if s.state = NodeState.Candidate then
    if doVote then
      candAfterSetup (voteRound s) 1 evs (sent ++ candidateBroadcast (voteRound s))
    else
      candAfterSetup s votes evs sent
  else
    some (s, evs, sent)
termination_by (evs.length, 1)

/-- The rest of one loop iteration (raft.go lines 73-92): the quorum
check — evaluated before blocking on any channel, returning as Leader
with the events untouched when it fires — and then the select, which
consumes exactly one event; an empty event list models a select with
nothing ever arriving (the loop stays blocked; the current state is
returned). -/
def candAfterSetup (s : Server) (votes : Nat) (evs : List CandEvent)
    (sent : List (String × RequestVoteRequest)) :
    Option (Server × List CandEvent × List (String × RequestVoteRequest)) :=
  if votes = QuorumSize s then
    some (setState NodeState.Leader s, evs, sent)
  else
    match evs with
    | [] => some (s, [], sent)
    | CandEvent.stop :: rest => some (setState NodeState.Stopped s, rest, sent)
    | CandEvent.voteResp r :: rest =>
        candLoop (processRequestVoteResponse s r).2 false
          (if (processRequestVoteResponse s r).1 then votes + 1 else votes) rest sent
    | CandEvent.rpc c :: rest =>
        match processRPC s c with
        | none => none
        | some s2 => candLoop s2 false votes rest sent
    | CandEvent.timeout :: rest => candLoop s true votes rest sent
termination_by (evs.length, 0)

end

/-- runAsCandidate (raft.go lines 51-94): the loop starts with doVote
set, votesGranted 0 and nothing sent. -/
def runAsCandidate (s : Server) (evs : List CandEvent) :
    Option (Server × List CandEvent × List (String × RequestVoteRequest)) :=
  candLoop s true 0 evs []

/-- C7: on a vote round (doVote set) a Candidate increments
currentTerm and votes for itself (the voteRound update), broadcasts
with votesGranted restarted at 1, and the quorum equality check is
evaluated before the select: quorum met means an immediate Leader
transition with every pending event left unconsumed; the same
check-before-blocking holds on later iterations (doVote clear) for the
accumulated votesGranted. -/
theorem candidate_round_behaviour (s : Server) (votes : Nat) (evs : List CandEvent)
    (sent : List (String × RequestVoteRequest)) (hc : s.state = NodeState.Candidate) :
    ((voteRound s).currentTerm = s.currentTerm + 1 ∧
     (voteRound s).votedFor = s.localAddress) ∧
    candLoop s true votes evs sent =
      (if 1 = QuorumSize (voteRound s) then
        some (setState NodeState.Leader (voteRound s), evs,
          sent ++ candidateBroadcast (voteRound s))
      else
        candAfterSetup (voteRound s) 1 evs (sent ++ candidateBroadcast (voteRound s))) ∧
    (votes = QuorumSize s →
      candLoop s false votes evs sent = some (setState NodeState.Leader s, evs, sent)) := by
  refine ⟨⟨rfl, rfl⟩, ?_, ?_⟩
  · rw [candLoop, if_pos hc, if_pos rfl]
    by_cases hq : (1 = QuorumSize (voteRound s))
    · rw [if_pos hq, candAfterSetup.eq_def, if_pos hq]
    · rw [if_neg hq]
  · intro hv
    rw [candLoop, if_pos hc, if_neg (show ¬(false = true) by simp),
      candAfterSetup.eq_def, if_pos hv]

/-- Candidate with no peers (quorum size 1), for the C7 witness. -/
def c7Server : Server :=
  { baseServer with state := NodeState.Candidate, peers := [] }

/-- C7 (witness): a candidate with no peers reaches quorum with its
self-vote alone and becomes Leader immediately, without consuming the
pending timeout event. -/
theorem candidate_round_behaviour_witness :
    c7Server.state = NodeState.Candidate ∧
    candLoop c7Server true 0 [CandEvent.timeout] [] =
      some (setState NodeState.Leader (voteRound c7Server), [CandEvent.timeout], []) := by
  refine ⟨rfl, ?_⟩
  have h := (candidate_round_behaviour c7Server 0 [CandEvent.timeout] [] rfl).2.1
  rw [h, if_pos (show (1 : Nat) = QuorumSize (voteRound c7Server) by decide)]
  rfl

/-- All requests in a broadcast batch carry the literal last-log pair
(1, 0). -/
theorem sentConst_broadcast (s : Server) :
    ∀ pr ∈ candidateBroadcast s, pr.2.LastLogIndex = 1 ∧ pr.2.LastLogTerm = 0 := by
  intro pr hpr
  unfold candidateBroadcast at hpr
  simp only [List.mem_map] at hpr
  obtain ⟨peer, _, rfl⟩ := hpr
  exact ⟨rfl, rfl⟩

/-- The constant-last-log property of sent requests is preserved by
every candLoop / candAfterSetup execution. -/
theorem candLoop_sent_const (evs : List CandEvent) :
    (∀ s doVote votes sent out, candLoop s doVote votes evs sent = some out →
      (∀ pr ∈ sent, pr.2.LastLogIndex = 1 ∧ pr.2.LastLogTerm = 0) →
      ∀ pr ∈ out.2.2, pr.2.LastLogIndex = 1 ∧ pr.2.LastLogTerm = 0) ∧
    (∀ s votes sent out, candAfterSetup s votes evs sent = some out →
      (∀ pr ∈ sent, pr.2.LastLogIndex = 1 ∧ pr.2.LastLogTerm = 0) →
      ∀ pr ∈ out.2.2, pr.2.LastLogIndex = 1 ∧ pr.2.LastLogTerm = 0) := by
  induction evs with
  | nil =>
      have hA : ∀ s votes sent out, candAfterSetup s votes [] sent = some out →
          (∀ pr ∈ sent, pr.2.LastLogIndex = 1 ∧ pr.2.LastLogTerm = 0) →
          ∀ pr ∈ out.2.2, pr.2.LastLogIndex = 1 ∧ pr.2.LastLogTerm = 0 := by
        intro s votes sent out h hok
        rw [candAfterSetup.eq_def] at h
        split_ifs at h with hq
        · obtain rfl := Option.some.inj h
          exact hok
        · obtain rfl := Option.some.inj h
          exact hok
      refine ⟨?_, hA⟩
      intro s doVote votes sent out h hok
      rw [candLoop] at h
      split_ifs at h with h1 h2
      · refine hA _ _ _ _ h ?_
        intro pr hpr
        rcases List.mem_append.mp hpr with hm | hm
        · exact hok pr hm
        · exact sentConst_broadcast _ pr hm
      · exact hA _ _ _ _ h hok
      · obtain rfl := Option.some.inj h
        exact hok
  | cons ev rest ih =>
      have hA : ∀ s votes sent out, candAfterSetup s votes (ev :: rest) sent = some out →
          (∀ pr ∈ sent, pr.2.LastLogIndex = 1 ∧ pr.2.LastLogTerm = 0) →
          ∀ pr ∈ out.2.2, pr.2.LastLogIndex = 1 ∧ pr.2.LastLogTerm = 0 := by
        intro s votes sent out h hok
        rw [candAfterSetup.eq_def] at h
        split_ifs at h with hq
        · obtain rfl := Option.some.inj h
          exact hok
        · cases ev with
          | stop =>
              obtain rfl := Option.some.inj h
              exact hok
          | voteResp r => exact ih.1 _ _ _ _ _ h hok
          | rpc c =>
              dsimp only at h
              cases hrpc : processRPC s c with
              | none =>
                  rw [hrpc] at h
                  exact Option.noConfusion h
              | some s2 =>
                  rw [hrpc] at h
                  exact ih.1 _ _ _ _ _ h hok
          | timeout => exact ih.1 _ _ _ _ _ h hok
      refine ⟨?_, hA⟩
      intro s doVote votes sent out h hok
      rw [candLoop] at h
      split_ifs at h with h1 h2
      · refine hA _ _ _ _ h ?_
        intro pr hpr
        rcases List.mem_append.mp hpr with hm | hm
        · exact hok pr hm
        · exact sentConst_broadcast _ pr hm
      · exact hA _ _ _ _ h hok
      · obtain rfl := Option.some.inj h
        exact hok

/-- C10: every vote request a run of the Candidate loop broadcasts —
on the first round and on every re-vote round — carries the constant
lastLogIndex 1 and lastLogTerm 0 rather than the candidate's cached
last-log values, so the receiving node's up-to-dateness rejection for
such a request reduces to comparing its own cached values against
(1, 0). -/
theorem candidate_vote_requests_constant (s : Server) (evs : List CandEvent)
    (out : Server × List CandEvent × List (String × RequestVoteRequest))
    (h : runAsCandidate s evs = some out) :
    ∀ pr ∈ out.2.2, pr.2.LastLogIndex = 1 ∧ pr.2.LastLogTerm = 0 ∧
      ∀ s' : Server, logUpToDateReject s' pr.2 =
        (decide (1 < s'.lastLogIndex) || decide (0 < s'.lastLogTerm)) := by
  have hemp : ∀ pr ∈ ([] : List (String × RequestVoteRequest)),
      pr.2.LastLogIndex = 1 ∧ pr.2.LastLogTerm = 0 := by
    intro pr hpr
    cases hpr
  have hmain := (candLoop_sent_const evs).1 s true 0 [] out h hemp
  intro pr hpr
  obtain ⟨h1, h2⟩ := hmain pr hpr
  refine ⟨h1, h2, ?_⟩
  intro s'
  unfold logUpToDateReject
  rw [h1, h2]

/-- Candidate with the default two peers, for the C10 witness. -/
def c10Server : Server :=
  { baseServer with state := NodeState.Candidate }

/-- Expected result of one blocked vote round of c10Server: term
incremented, self-vote recorded, one (1, 0)-request per peer sent. -/
def c10Out : Server × List CandEvent × List (String × RequestVoteRequest) :=
  ({ baseServer with state := NodeState.Candidate, currentTerm := 1, votedFor := "n0" },
   [],
   [("n1", newRequestVoteRequest 1 "n0" 1 0), ("n2", newRequestVoteRequest 1 "n0" 1 0)])

/-- C10 (witness): the two requests actually broadcast by c10Server
both carry lastLogIndex 1 and lastLogTerm 0. -/
theorem candidate_vote_requests_constant_witness :
    (("n1", newRequestVoteRequest 1 "n0" 1 0)) ∈ c10Out.2.2 ∧
    (newRequestVoteRequest 1 "n0" 1 0).LastLogIndex = 1 ∧
    (newRequestVoteRequest 1 "n0" 1 0).LastLogTerm = 0 := by
  have hrun : runAsCandidate c10Server [] = some c10Out := by
    rw [runAsCandidate, candLoop,
      if_pos (show c10Server.state = NodeState.Candidate from rfl), if_pos rfl,
      candAfterSetup.eq_def,
      if_neg (show ¬((1 : Nat) = QuorumSize (voteRound c10Server)) by decide)]
    rfl
  have h := candidate_vote_requests_constant c10Server [] c10Out hrun
    ("n1", newRequestVoteRequest 1 "n0" 1 0) (by decide)
  exact ⟨by decide, h.1, h.2.1⟩

end Raft
